import Mathlib

/-!
Verification of the review-app core (src/src/app/page.tsx): the Review
Projector (grouping and filtering of reviews by section), the Edit-State
Controller (begin-edit / cancel / commit / delete on a single review), and
the Entry Composer (two-stage section + title/content input flow).

The file shallowly embeds the relevant TypeScript functions as Lean
definitions and proves the spec's testable properties about them.
-/

set_option autoImplicit false

/-- A review record, as stored in the external entity store
(`type Review = InstaQLEntity<AppSchema, "reviews">`). -/
structure Review where
  id : String
  title : String
  content : String
  «section» : String
  createdAt : Nat
deriving DecidableEq, Repr

/-- The fixed enumerated section ids, in the order they are declared in
the `SECTIONS` object literal (page.tsx lines 10-16). -/
def SECTION_IDS : List String :=
  ["growing-instant", "planning-wedding", "best-shape"]

/-- A write operation submitted to the external store via `db.transact`.
`create` is the `db.tx.reviews[id()].update({title, content, section,
createdAt})` call that creates a fresh review; `update` is the
`db.tx.reviews[review.id].update({title, content})` call of an edit commit;
`delete` is `db.tx.reviews[review.id].delete()`. -/
inductive WriteOp where
  | create (id title content sec : String) (createdAt : Nat)
  | update (id title content : String)
  | delete (id : String)
deriving DecidableEq, Repr

/-- Effect of one write operation on a store snapshot. An `update` maps
over the records, replacing `title` and `content` of the record whose id
matches; a `delete` removes the record; a `create` appends a fresh record. -/
def applyOp (store : List Review) : WriteOp → List Review
  | .update rid t c =>
      store.map (fun r => if r.id = rid then { r with title := t, content := c } else r)
  | .delete rid => store.filter (fun r => r.id ≠ rid)
  | .create rid t c s ca => store ++ [⟨rid, t, c, s, ca⟩]

/-! ## Review Projector

`ReadView` (page.tsx lines 106-114) groups the review list with a
`reduce`: for each review, if the accumulator object has no entry for the
review's `section` an empty list is created, and the review is pushed onto
that entry. We model the accumulator object as an association list whose
keys appear in insertion order, exactly as JS object string keys do. -/

/-- One step of the `reduce` of `ReadView`:
`if (!acc[section]) acc[section] = []; acc[section].push(review)`. -/
def insertReview (acc : List (String × List Review)) (r : Review) :
    List (String × List Review) :=
  if acc.any (fun p => p.1 == r.«section») then
    acc.map (fun p => if p.1 = r.«section» then (p.1, p.2 ++ [r]) else p)
  else
    acc ++ [(r.«section», [r])]

/-- `const groupedBySection = reviews.reduce(..., {})` (page.tsx 106-114). -/
def groupedBySection (reviews : List Review) : List (String × List Review) :=
  reviews.foldl insertReview []

/-- Key lookup in the accumulator object (`groupedBySection[sectionId]`):
the first entry with the given key, if any. -/
def lookupGroup (k : String) : List (String × List Review) → Option (List Review)
  | [] => none
  | p :: rest => if p.1 = k then some p.2 else lookupGroup k rest

/-- `ReadView`'s rendering of one section id (page.tsx 119-121): look the
section up in the grouped mapping and skip it when missing or empty
(`if (!sectionReviews?.length) return null`). -/
def renderGroup (reviews : List Review) (sectionId : String) :
    Option (String × List Review) :=
  match lookupGroup sectionId (groupedBySection reviews) with
  | none => none
  | some l => if l.isEmpty then none else some (sectionId, l)

/-- The section groups that `ReadView` actually renders, in order:
`(Object.keys(SECTIONS) as SectionId[]).map(...)` iterates the fixed
enumerated keys, skipping missing/empty ones. -/
def renderedGroups (reviews : List Review) : List (String × List Review) :=
  SECTION_IDS.filterMap (renderGroup reviews)

/-- Filter mode of the tabbed `App` variant (page.tsx line 392):
`const sectionReviews = reviews.filter((r) => r.section === activeSection)`. -/
def sectionReviews (reviews : List Review) (activeSection : String) : List Review :=
  reviews.filter (fun r => r.«section» == activeSection)

/-- Spec-side definition of filter mode, written from the spec's words:
"the output sequence equals exactly the input elements whose `section`
equals the selected id, in original relative order". Used only to compare
with the code's `sectionReviews`. -/
def specFilterMode (reviews : List Review) (selected : String) : List Review :=
  match reviews with
  | [] => []
  | r :: rest =>
      if r.«section» = selected then r :: specFilterMode rest selected
      else specFilterMode rest selected

/-- Model of JS `String.prototype.trim()`: strip leading and trailing
whitespace. Defined over the character list so that it evaluates by kernel
reduction. -/
def jsTrim (s : String) : String :=
  ⟨((s.data.dropWhile Char.isWhitespace).reverse.dropWhile Char.isWhitespace).reverse⟩

/-! ## Entry Composer

`WriteView` (page.tsx 242-346) holds four pieces of local state: the wizard
step (`"section"` or `"content"`), the selected section, and the title and
content buffers. `AddReviewCard` (page.tsx 472-543) is the dashboard
variant's side form, whose section comes in as a prop. -/

/-- The wizard step of `WriteView`: `useState<"section" | "content">`. -/
inductive Step where
  | «section»
  | content
deriving DecidableEq, Repr

/-- The local state of `WriteView` (page.tsx 243-246). -/
structure WriteState where
  step : Step
  selectedSection : Option String
  title : String
  content : String
deriving DecidableEq, Repr

/-- `WriteView.handleSubmit` (page.tsx 248-265): bail out when no section
is selected or either trimmed field is empty; otherwise transact a create
write with the trimmed fields, a fresh id and `Date.now()`, then reset all
four local fields. The new state and the list of issued writes are
returned. -/
def WriteView.handleSubmit (st : WriteState) (freshId : String) (now : Nat) :
    WriteState × List WriteOp :=
  match st.selectedSection with
  | none => (st, [])
  | some sec =>
      if jsTrim st.title = "" ∨ jsTrim st.content = "" then (st, [])
      else
        ({ step := Step.«section», selectedSection := none, title := "", content := "" },
         [WriteOp.create freshId (jsTrim st.title) (jsTrim st.content) sec now])

/-- The back button of `WriteView` (page.tsx 296-301): its click handler is
exactly `setStep("section")`; no other field is touched. -/
def WriteView.back (st : WriteState) : WriteState :=
  { st with step := Step.«section» }

/-- Choosing a section in `WriteView` (page.tsx 277-280):
`setSelectedSection(sectionId); setStep("content")`. -/
def WriteView.chooseSection (st : WriteState) (sectionId : String) : WriteState :=
  { st with selectedSection := some sectionId, step := Step.content }

/-- The local state of `AddReviewCard` (page.tsx 479-480): only the title
and content buffers; its section is a prop. -/
structure CardState where
  title : String
  content : String
deriving DecidableEq, Repr

/-- `AddReviewCard.handleSubmit` (page.tsx 482-497): bail out when either
trimmed field is empty; otherwise transact a create write with the trimmed
fields, the prop section, a fresh id and `Date.now()`, then clear the two
buffers. -/
def AddReviewCard.handleSubmit (sec : String) (st : CardState) (freshId : String)
    (now : Nat) : CardState × List WriteOp :=
  if jsTrim st.title = "" ∨ jsTrim st.content = "" then (st, [])
  else ({ title := "", content := "" },
        [WriteOp.create freshId (jsTrim st.title) (jsTrim st.content) sec now])

/-! ## Edit-State Controller

`App` (page.tsx 22-23) holds `editingId: string | null`; `ReadView` passes
each `ReviewEntry` `isEditing = (editingId === review.id)`, `onEdit =
setEditingId(review.id)` and `onClose = setEditingId(null)` (page.tsx
130-137). `ReviewEntry` (page.tsx 148-240) holds the edit buffers
`editTitle`/`editContent`, seeded by `useState(review.title)` /
`useState(review.content)` once, when the component mounts. -/

/-- `onEdit` of a review row: `() => setEditingId(review.id)`. -/
def beginEdit (rid : String) (_editingId : Option String) : Option String :=
  some rid

/-- `isEditing = (editingId === review.id)` (page.tsx 134). -/
def isEditing (editingId : Option String) (rid : String) : Bool :=
  editingId == some rid

/-- The edit buffers of one `ReviewEntry` (page.tsx 159-160). -/
structure EntryState where
  editTitle : String
  editContent : String
deriving DecidableEq, Repr

/-- The `useState` initializers of `ReviewEntry`: the buffers are seeded
from the review's persisted fields when the component mounts. -/
def initEntryState (r : Review) : EntryState :=
  { editTitle := r.title, editContent := r.content }

/-- The user actions available on one `ReviewEntry` row. -/
inductive EntryAction where
  | setEditTitle (s : String)
  | setEditContent (s : String)
  | onEdit
  | onClose
  | handleSave
  | handleDelete
deriving DecidableEq, Repr

/-- The state visible to one `ReviewEntry`: its own buffers plus the
shared `editingId` of the controller. -/
structure EntryView where
  buffer : EntryState
  editingId : Option String
deriving DecidableEq, Repr

/-- One step of `ReviewEntry` (page.tsx 148-240): `setEditTitle` /
`setEditContent` update a buffer; `onEdit` is `setEditingId(review.id)`;
`onClose` (the Cancel button) is `setEditingId(null)`; `handleSave`
(171-180) returns early when either trimmed buffer is empty and otherwise
transacts an update of `title` and `content` then calls `onClose`;
`handleDelete` (182-185) transacts a delete then calls `onClose`. -/
def ReviewEntry.step (r : Review) (a : EntryAction) (v : EntryView) :
    EntryView × List WriteOp :=
  match a with
  | .setEditTitle s => ({ v with buffer := { v.buffer with editTitle := s } }, [])
  | .setEditContent s => ({ v with buffer := { v.buffer with editContent := s } }, [])
  | .onEdit => ({ v with editingId := beginEdit r.id v.editingId }, [])
  | .onClose => ({ v with editingId := none }, [])
  | .handleSave =>
      if jsTrim v.buffer.editTitle = "" ∨ jsTrim v.buffer.editContent = "" then (v, [])
      else ({ v with editingId := none },
            [WriteOp.update r.id (jsTrim v.buffer.editTitle) (jsTrim v.buffer.editContent)])
  | .handleDelete => ({ v with editingId := none }, [WriteOp.delete r.id])

/-! ### Association-list lemmas for the grouping fold -/

theorem lookupGroup_eq_none_iff_any (k : String) (acc : List (String × List Review)) :
    lookupGroup k acc = none ↔ acc.any (fun p => p.1 == k) = false := by
  induction acc with
  | nil => simp [lookupGroup]
  | cons p rest ih =>
      by_cases hk : p.1 = k <;> simp [lookupGroup, hk, ih]

theorem lookupGroup_map_push (k s : String) (r : Review)
    (acc : List (String × List Review)) :
    lookupGroup k (acc.map (fun p => if p.1 = s then (p.1, p.2 ++ [r]) else p)) =
      if k = s then (lookupGroup k acc).map (fun l => l ++ [r])
      else lookupGroup k acc := by
  induction acc with
  | nil => by_cases hks : k = s <;> simp [lookupGroup, hks]
  | cons p rest ih =>
      by_cases hp : p.1 = s <;> by_cases hk : p.1 = k
      · have hks : k = s := hk.symm.trans hp
        simp [lookupGroup, hp, hk, hks]
      · have hsk : ¬ s = k := fun h => hk (hp.trans h)
        have hks : ¬ k = s := fun h => hsk h.symm
        simp [lookupGroup, hp, hk, hsk, hks, ih]
      · have hks : ¬ k = s := fun h => hp (hk.trans h)
        simp [lookupGroup, hp, hk, hks]
      · simp [lookupGroup, hp, hk, ih]

theorem lookupGroup_append_single (k s : String) (l : List Review)
    (acc : List (String × List Review)) :
    lookupGroup k (acc ++ [(s, l)]) =
      match lookupGroup k acc with
      | some t => some t
      | none => if k = s then some l else none := by
  induction acc with
  | nil =>
      by_cases hk : k = s
      · subst hk
        simp [lookupGroup]
      · have hsk : ¬ s = k := fun h => hk h.symm
        simp [lookupGroup, hk, hsk]
  | cons p rest ih =>
      by_cases hk : p.1 = k <;> simp [lookupGroup, hk, ih]

/-- How one `reduce` step changes the lookup at an arbitrary key. -/
theorem lookupGroup_insertReview (acc : List (String × List Review)) (r : Review)
    (k : String) :
    lookupGroup k (insertReview acc r) =
      if k = r.«section» then
        match lookupGroup k acc with
        | some l => some (l ++ [r])
        | none => some [r]
      else lookupGroup k acc := by
  unfold insertReview
  by_cases hany : acc.any (fun p => p.1 == r.«section») = true
  · rw [if_pos hany, lookupGroup_map_push]
    by_cases hk : k = r.«section»
    · rw [if_pos hk, if_pos hk]
      cases h : lookupGroup k acc with
      | none =>
          rw [lookupGroup_eq_none_iff_any, hk] at h
          rw [h] at hany
          exact absurd hany (by simp)
      | some l => rfl
    · rw [if_neg hk, if_neg hk]
  · rw [if_neg hany, lookupGroup_append_single]
    have hnone : lookupGroup r.«section» acc = none := by
      rw [lookupGroup_eq_none_iff_any]
      exact Bool.eq_false_iff.mpr hany
    by_cases hk : k = r.«section»
    · rw [if_pos hk, hk, hnone]
      simp
    · rw [if_neg hk]
      cases h : lookupGroup k acc <;> simp [hk]

/-- Characterization of the whole grouping fold, for an arbitrary initial
accumulator. -/
theorem lookupGroup_foldl (rs : List Review) : ∀ (acc : List (String × List Review))
    (k : String),
    lookupGroup k (rs.foldl insertReview acc) =
      match lookupGroup k acc with
      | some l => some (l ++ rs.filter (fun x => x.«section» == k))
      | none =>
          if (rs.filter (fun x => x.«section» == k)).isEmpty then none
          else some (rs.filter (fun x => x.«section» == k)) := by
  induction rs with
  | nil =>
      intro acc k
      simp only [List.foldl_nil, List.filter_nil, List.isEmpty_nil]
      cases h : lookupGroup k acc <;> simp
  | cons r rs ih =>
      intro acc k
      rw [List.foldl_cons, ih, lookupGroup_insertReview]
      by_cases hk : k = r.«section»
      · rw [if_pos hk]
        have hfil : (r :: rs).filter (fun x => x.«section» == k) =
            r :: rs.filter (fun x => x.«section» == k) := by
          simp [List.filter_cons, hk]
        rw [hfil]
        cases h : lookupGroup k acc with
        | some l => simp
        | none => simp
      · rw [if_neg hk]
        have hfil : (r :: rs).filter (fun x => x.«section» == k) =
            rs.filter (fun x => x.«section» == k) := by
          have : (r.«section» == k) = false := by
            simp
            intro h
            exact hk h.symm
          simp [List.filter_cons, this]
        rw [hfil]

/-- The grouped mapping, characterized: looking up any key gives exactly the
input's filter at that key, or nothing when that filter is empty. -/
theorem lookupGroup_groupedBySection (rs : List Review) (k : String) :
    lookupGroup k (groupedBySection rs) =
      if (rs.filter (fun x => x.«section» == k)).isEmpty then none
      else some (rs.filter (fun x => x.«section» == k)) := by
  have h := lookupGroup_foldl rs [] k
  simpa [groupedBySection, lookupGroup] using h

theorem list_isEmpty_iff_nil {α : Type} (l : List α) : l.isEmpty = true ↔ l = [] := by
  cases l <;> simp [List.isEmpty]

theorem map_fst_map_push (s : String) (r : Review)
    (acc : List (String × List Review)) :
    (acc.map (fun p => if p.1 = s then (p.1, p.2 ++ [r]) else p)).map Prod.fst =
      acc.map Prod.fst := by
  induction acc with
  | nil => rfl
  | cons p rest ih =>
      by_cases h : p.1 = s <;> simp [h, ih]

theorem nodup_keys_foldl (rs : List Review) :
    ∀ acc : List (String × List Review),
    (acc.map Prod.fst).Nodup → ((rs.foldl insertReview acc).map Prod.fst).Nodup := by
  induction rs with
  | nil =>
      intro acc h
      simpa using h
  | cons r rs ih =>
      intro acc h
      rw [List.foldl_cons]
      apply ih
      unfold insertReview
      by_cases hany : acc.any (fun p => p.1 == r.«section») = true
      · rw [if_pos hany, map_fst_map_push]
        exact h
      · rw [if_neg hany, List.map_append]
        have hni : r.«section» ∉ acc.map Prod.fst := by
          intro hmem
          rcases List.mem_map.mp hmem with ⟨p, hp, hfst⟩
          exact hany (List.any_eq_true.mpr ⟨p, hp, by simp [hfst]⟩)
        refine List.Nodup.append h (List.nodup_singleton _) ?_
        intro a ha hb
        simp only [List.map_cons, List.map_nil, List.mem_singleton] at hb
        exact hni (hb ▸ ha)

theorem nodup_keys_groupedBySection (rs : List Review) :
    ((groupedBySection rs).map Prod.fst).Nodup :=
  nodup_keys_foldl rs [] (by simp)

/-! ## Claim theorems: Review Projector -/

/-- C1: in grouping mode, every review appears in the output mapping under
exactly one key, that key equals the review's `section`, no key of the
mapping has an empty list, and the relative order of reviews within each
group equals their order in the input sequence (each group is exactly the
input's order-preserving filter at its key, and the keys are distinct). -/
theorem grouping_mode_correct (rs : List Review) :
    ((groupedBySection rs).map Prod.fst).Nodup ∧
    (∀ r, r ∈ rs →
      ∃ l, lookupGroup r.«section» (groupedBySection rs) = some l ∧ r ∈ l) ∧
    (∀ k l, lookupGroup k (groupedBySection rs) = some l →
      l ≠ [] ∧ l = rs.filter (fun x => x.«section» == k)) := by
  refine ⟨nodup_keys_groupedBySection rs, ?_, ?_⟩
  · intro r hr
    have hmem : r ∈ rs.filter (fun x => x.«section» == r.«section») :=
      List.mem_filter.mpr ⟨hr, by simp⟩
    have hne : ¬ (rs.filter (fun x => x.«section» == r.«section»)).isEmpty = true := by
      intro h
      rw [list_isEmpty_iff_nil] at h
      rw [h] at hmem
      simp at hmem
    refine ⟨rs.filter (fun x => x.«section» == r.«section»), ?_, hmem⟩
    rw [lookupGroup_groupedBySection, if_neg hne]
  · intro k l hl
    rw [lookupGroup_groupedBySection] at hl
    by_cases h : (rs.filter (fun x => x.«section» == k)).isEmpty = true
    · rw [if_pos h] at hl
      exact absurd hl (by simp)
    · rw [if_neg h] at hl
      have hlf : rs.filter (fun x => x.«section» == k) = l :=
        (Option.some.injEq _ _).mp hl
      refine ⟨fun hnil => h ?_, hlf.symm⟩
      rw [hlf, hnil]
      rfl

/-- Witness for C1: a concrete single-review input, looked up at its key. -/
theorem grouping_mode_correct_witness :
    [(⟨"r1", "W", "C", "best-shape", 100⟩ : Review)] ≠ [] ∧
    [(⟨"r1", "W", "C", "best-shape", 100⟩ : Review)] =
      List.filter (fun x => x.«section» == "best-shape")
        [⟨"r1", "W", "C", "best-shape", 100⟩] :=
  (grouping_mode_correct [⟨"r1", "W", "C", "best-shape", 100⟩]).2.2 "best-shape"
    [⟨"r1", "W", "C", "best-shape", 100⟩] (by decide)

/-- C2: in filter mode, the output sequence equals exactly the input
elements whose `section` equals the selected id, in original relative
order (the code's filter coincides with the spec-side recursion), and a
selection with no matching reviews yields the empty sequence. -/
theorem filter_mode_correct (rs : List Review) (sel : String) :
    sectionReviews rs sel = specFilterMode rs sel ∧
    ((∀ r, r ∈ rs → r.«section» ≠ sel) → sectionReviews rs sel = []) := by
  induction rs with
  | nil => exact ⟨rfl, fun _ => rfl⟩
  | cons r rest ih =>
      constructor
      · by_cases h : r.«section» = sel
        · simp only [sectionReviews, specFilterMode, List.filter_cons] at ih ⊢
          simp [h, ih.1]
        · simp only [sectionReviews, specFilterMode, List.filter_cons] at ih ⊢
          simp [h, ih.1]
      · intro hall
        have h1 : r.«section» ≠ sel := hall r (List.mem_cons_self r rest)
        have h2 : sectionReviews rest sel = [] :=
          ih.2 (fun x hx => hall x (List.mem_cons_of_mem r hx))
        simp only [sectionReviews, List.filter_cons] at h2 ⊢
        simp [h1, h2]

/-- Witness for C2: a selected id with no matching reviews yields `[]`. -/
theorem filter_mode_correct_witness :
    sectionReviews [(⟨"r1", "W", "C", "growing-instant", 5⟩ : Review)] "best-shape" = [] :=
  (filter_mode_correct [⟨"r1", "W", "C", "growing-instant", 5⟩] "best-shape").2
    (by decide)

theorem renderGroup_some (rs : List Review) (k : String) (p : String × List Review)
    (h : renderGroup rs k = some p) :
    p.1 = k ∧ p.2 = rs.filter (fun x => x.«section» == k) := by
  unfold renderGroup at h
  split at h
  · exact absurd h (by simp)
  · rename_i l hl
    by_cases he : l.isEmpty = true
    · rw [if_pos he] at h
      exact absurd h (by simp)
    · rw [if_neg he] at h
      have hp := (Option.some.injEq _ _).mp h
      rw [lookupGroup_groupedBySection] at hl
      by_cases hf : (rs.filter (fun x => x.«section» == k)).isEmpty = true
      · rw [if_pos hf] at hl
        exact absurd hl (by simp)
      · rw [if_neg hf] at hl
        have hfl : rs.filter (fun x => x.«section» == k) = l :=
          (Option.some.injEq _ _).mp hl
        rw [← hp]
        exact ⟨rfl, hfl.symm⟩

/-- C10: a review whose `section` is not one of the three enumerated
section ids is still placed under its own key in the grouped mapping, but
it is never rendered, because rendering iterates only over the fixed
enumerated keys; the rendered groups always appear in (a subsequence of)
the fixed enumeration order, regardless of the input order. -/
theorem unknown_section_unrendered (rs : List Review) :
    ((renderedGroups rs).map Prod.fst).Sublist SECTION_IDS ∧
    ∀ r, r ∈ rs → r.«section» ∉ SECTION_IDS →
      (∃ l, lookupGroup r.«section» (groupedBySection rs) = some l ∧ r ∈ l) ∧
      r ∉ (renderedGroups rs).flatMap Prod.snd := by
  constructor
  · have haux : ∀ keys : List String,
        ((keys.filterMap (renderGroup rs)).map Prod.fst).Sublist keys := by
      intro keys
      induction keys with
      | nil => simp
      | cons k ks ih =>
          rw [List.filterMap_cons]
          cases h : renderGroup rs k with
          | none => exact ih.cons k
          | some p =>
              rw [List.map_cons, (renderGroup_some rs k p h).1]
              exact ih.cons₂ k
    exact haux SECTION_IDS
  · intro r hr hsec
    constructor
    · have hmem : r ∈ rs.filter (fun x => x.«section» == r.«section») :=
        List.mem_filter.mpr ⟨hr, by simp⟩
      have hne : ¬ (rs.filter (fun x => x.«section» == r.«section»)).isEmpty = true := by
        intro h
        rw [list_isEmpty_iff_nil] at h
        rw [h] at hmem
        simp at hmem
      exact ⟨_, by rw [lookupGroup_groupedBySection, if_neg hne], hmem⟩
    · intro hrp
      rcases List.mem_flatMap.mp hrp with ⟨p, hp, hrmem⟩
      rcases List.mem_filterMap.mp hp with ⟨k, hk, hrg⟩
      rcases renderGroup_some rs k p hrg with ⟨_, hp2⟩
      rw [hp2] at hrmem
      have hbk := (List.mem_filter.mp hrmem).2
      have heq : r.«section» = k := by simpa using hbk
      exact hsec (heq ▸ hk)

/-- Witness for C10: a review in an unrecognized section "other-section"
is grouped but not rendered. -/
theorem unknown_section_unrendered_witness :
    ((renderedGroups [(⟨"r1", "T", "C", "other-section", 5⟩ : Review)]).map
      Prod.fst).Sublist SECTION_IDS ∧
    (⟨"r1", "T", "C", "other-section", 5⟩ : Review) ∉
      (renderedGroups [(⟨"r1", "T", "C", "other-section", 5⟩ : Review)]).flatMap Prod.snd :=
  ⟨(unknown_section_unrendered [⟨"r1", "T", "C", "other-section", 5⟩]).1,
   ((unknown_section_unrendered [⟨"r1", "T", "C", "other-section", 5⟩]).2
     ⟨"r1", "T", "C", "other-section", 5⟩ (by simp) (by decide)).2⟩

/-! ## Claim theorems: Entry Composer -/

/-- C3: when a section is selected and both trimmed fields are non-empty,
submitting issues exactly one create write with the trimmed title, the
trimmed content, the selected section and the freshly generated timestamp,
clears all local fields, and returns the composer to the section step; the
dashboard variant's side form likewise issues exactly one such create and
clears its two buffers. -/
theorem composer_submit_success (st : WriteState) (sec freshId : String) (now : Nat)
    (hsec : st.selectedSection = some sec)
    (ht : jsTrim st.title ≠ "") (hc : jsTrim st.content ≠ "") :
    WriteView.handleSubmit st freshId now =
      ({ step := Step.«section», selectedSection := none, title := "", content := "" },
       [WriteOp.create freshId (jsTrim st.title) (jsTrim st.content) sec now]) ∧
    ∀ cs : CardState, jsTrim cs.title ≠ "" → jsTrim cs.content ≠ "" →
      AddReviewCard.handleSubmit sec cs freshId now =
        ({ title := "", content := "" },
         [WriteOp.create freshId (jsTrim cs.title) (jsTrim cs.content) sec now]) := by
  constructor
  · unfold WriteView.handleSubmit
    split
    · rename_i hnone
      rw [hnone] at hsec
      exact absurd hsec (by simp)
    · rename_i sec' hsec'
      rw [hsec'] at hsec
      have hs : sec' = sec := (Option.some.injEq _ _).mp hsec
      subst hs
      rw [if_neg (not_or.mpr ⟨ht, hc⟩)]
  · intro cs ht' hc'
    unfold AddReviewCard.handleSubmit
    rw [if_neg (not_or.mpr ⟨ht', hc'⟩)]

/-- Witness for C3: a concrete successful submit. -/
theorem composer_submit_success_witness :
    WriteView.handleSubmit ⟨Step.content, some "best-shape", " Week 1 ", "Felt strong"⟩
        "id1" 42 =
      (⟨Step.«section», none, "", ""⟩,
       [WriteOp.create "id1" (jsTrim " Week 1 ") (jsTrim "Felt strong") "best-shape" 42]) :=
  (composer_submit_success ⟨Step.content, some "best-shape", " Week 1 ", "Felt strong"⟩
    "best-shape" "id1" 42 rfl (by decide) (by decide)).1

/-- C9: submitting with a whitespace-only title issues no create write and
leaves the composer state (step and all buffered fields) unchanged, in
both form variants. -/
theorem composer_submit_whitespace_title (st : WriteState) (freshId sec : String)
    (now : Nat) (hstep : st.step = Step.content) (ht : jsTrim st.title = "") :
    WriteView.handleSubmit st freshId now = (st, []) ∧
    (WriteView.handleSubmit st freshId now).1.step = Step.content ∧
    ∀ cs : CardState, jsTrim cs.title = "" →
      AddReviewCard.handleSubmit sec cs freshId now = (cs, []) := by
  have h1 : WriteView.handleSubmit st freshId now = (st, []) := by
    unfold WriteView.handleSubmit
    split
    · rfl
    · rw [if_pos (Or.inl ht)]
  refine ⟨h1, by rw [h1]; exact hstep, ?_⟩
  intro cs hcs
  unfold AddReviewCard.handleSubmit
  rw [if_pos (Or.inl hcs)]

/-- Witness for C9: submitting with title `" "` is a no-op. -/
theorem composer_submit_whitespace_title_witness :
    WriteView.handleSubmit ⟨Step.content, some "best-shape", " ", "Some content"⟩
        "id1" 42 =
      (⟨Step.content, some "best-shape", " ", "Some content"⟩, []) :=
  (composer_submit_whitespace_title ⟨Step.content, some "best-shape", " ", "Some content"⟩
    "id1" "best-shape" 42 rfl (by decide)).1

/-- C7 is false on the code: the back button's handler is exactly
`setStep("section")`, so from EnteringDetails with buffered title
"Week 1" and content "Felt strong" the composer returns to the section
step but neither buffer is reset to empty. -/
theorem composer_back_counterexample :
    (WriteView.back ⟨Step.content, some "best-shape", "Week 1", "Felt strong"⟩).step =
      Step.«section» ∧
    ¬ ((WriteView.back ⟨Step.content, some "best-shape", "Week 1", "Felt strong"⟩).title = "" ∧
       (WriteView.back ⟨Step.content, some "best-shape", "Week 1", "Felt strong"⟩).content = "") := by
  refine ⟨rfl, fun hcontra => absurd hcontra.1 (by decide)⟩

/-- C7 amended: the back action returns the composer to the section
(SelectingSection) step and leaves the selected section and the buffered
title and content unchanged (they are not discarded). -/
theorem composer_back_preserves_fields (st : WriteState) :
    (WriteView.back st).step = Step.«section» ∧
    (WriteView.back st).selectedSection = st.selectedSection ∧
    (WriteView.back st).title = st.title ∧
    (WriteView.back st).content = st.content :=
  ⟨rfl, rfl, rfl, rfl⟩

/-! ## Claim theorems: Edit-State Controller -/

/-- C4: beginning an edit on Y after X (X ≠ Y) leaves Y, and only Y, in
edit state — last click wins — and the controller can hold at most one
editing id at a time. -/
theorem last_click_wins (X Y : String) (st : Option String) (hXY : X ≠ Y) :
    beginEdit Y (beginEdit X st) = some Y ∧
    isEditing (beginEdit Y (beginEdit X st)) X = false ∧
    ∀ (s : Option String) (a b : String),
      isEditing s a = true → isEditing s b = true → a = b := by
  refine ⟨rfl, ?_, ?_⟩
  · have hYX : ¬ (Y = X) := fun h => hXY h.symm
    simp [beginEdit, isEditing, hYX]
  · intro s a b ha hb
    simp only [isEditing, beq_iff_eq] at ha hb
    rw [ha] at hb
    exact (Option.some.injEq _ _).mp hb

/-- Witness for C4 at concrete ids. -/
theorem last_click_wins_witness :
    beginEdit "b" (beginEdit "a" none) = some "b" ∧
    isEditing (beginEdit "b" (beginEdit "a" none)) "a" = false :=
  ⟨(last_click_wins "a" "b" none (by decide)).1,
   (last_click_wins "a" "b" none (by decide)).2.1⟩

/-- C5: when both trimmed buffers are non-empty, commit issues exactly one
update write carrying the trimmed title and content and returns the
controller to Idle; applying that write to any store snapshot changes only
the `title` and `content` of the edited review (ids, sections, creation
times and every other review are untouched, in place). When either trimmed
buffer is empty, no write is issued and the state is unchanged (still
Editing(id)). -/
theorem commit_edit (r : Review) (v : EntryView) (store : List Review) :
    (jsTrim v.buffer.editTitle ≠ "" → jsTrim v.buffer.editContent ≠ "" →
      ReviewEntry.step r .handleSave v =
        ({ v with editingId := none },
         [WriteOp.update r.id (jsTrim v.buffer.editTitle) (jsTrim v.buffer.editContent)]) ∧
      (applyOp store
        (WriteOp.update r.id (jsTrim v.buffer.editTitle)
          (jsTrim v.buffer.editContent))).length = store.length ∧
      ∀ (i : Nat) (h1 : i < store.length)
        (h2 : i < (applyOp store
          (WriteOp.update r.id (jsTrim v.buffer.editTitle)
            (jsTrim v.buffer.editContent))).length),
        ((applyOp store
          (WriteOp.update r.id (jsTrim v.buffer.editTitle)
            (jsTrim v.buffer.editContent)))[i].id = store[i].id ∧
         (applyOp store
          (WriteOp.update r.id (jsTrim v.buffer.editTitle)
            (jsTrim v.buffer.editContent)))[i].«section» = store[i].«section» ∧
         (applyOp store
          (WriteOp.update r.id (jsTrim v.buffer.editTitle)
            (jsTrim v.buffer.editContent)))[i].createdAt = store[i].createdAt ∧
         (store[i].id ≠ r.id →
          (applyOp store
            (WriteOp.update r.id (jsTrim v.buffer.editTitle)
              (jsTrim v.buffer.editContent)))[i] = store[i]))) ∧
    (jsTrim v.buffer.editTitle = "" ∨ jsTrim v.buffer.editContent = "" →
      ReviewEntry.step r .handleSave v = (v, [])) := by
  constructor
  · intro ht hc
    have hop : ReviewEntry.step r .handleSave v =
        ({ v with editingId := none },
         [WriteOp.update r.id (jsTrim v.buffer.editTitle)
           (jsTrim v.buffer.editContent)]) := by
      unfold ReviewEntry.step
      rw [if_neg (not_or.mpr ⟨ht, hc⟩)]
    refine ⟨hop, by simp [applyOp], ?_⟩
    intro i h1 h2
    simp only [applyOp, List.getElem_map]
    by_cases hid : store[i].id = r.id
    · simp [hid]
    · simp [hid]
  · intro hinv
    unfold ReviewEntry.step
    rw [if_pos hinv]

/-- Witness for C5: a concrete valid commit. -/
theorem commit_edit_witness :
    ReviewEntry.step (⟨"r1", "A", "B", "best-shape", 7⟩ : Review) .handleSave
        ⟨⟨"New title", "New content"⟩, some "r1"⟩ =
      (⟨⟨"New title", "New content"⟩, none⟩,
       [WriteOp.update "r1" (jsTrim "New title") (jsTrim "New content")]) :=
  ((commit_edit ⟨"r1", "A", "B", "best-shape", 7⟩
      ⟨⟨"New title", "New content"⟩, some "r1"⟩ []).1 (by decide) (by decide)).1

/-- C6: deleting the review currently being edited issues a delete write
for its id and returns the controller to Idle (the handler transacts the
delete and then calls onClose). -/
theorem delete_while_editing (r : Review) (v : EntryView)
    (_h : v.editingId = some r.id) :
    (ReviewEntry.step r .handleDelete v).1.editingId = none ∧
    (ReviewEntry.step r .handleDelete v).2 = [WriteOp.delete r.id] :=
  ⟨rfl, rfl⟩

/-- Witness for C6: deleting a concrete review while it is being edited. -/
theorem delete_while_editing_witness :
    (ReviewEntry.step (⟨"r1", "A", "B", "best-shape", 7⟩ : Review) .handleDelete
        ⟨⟨"A", "B"⟩, some "r1"⟩).1.editingId = none ∧
    (ReviewEntry.step (⟨"r1", "A", "B", "best-shape", 7⟩ : Review) .handleDelete
        ⟨⟨"A", "B"⟩, some "r1"⟩).2 = [WriteOp.delete "r1"] :=
  delete_while_editing ⟨"r1", "A", "B", "best-shape", 7⟩ ⟨⟨"A", "B"⟩, some "r1"⟩ rfl

/-- C8 is false on the code: Cancel (onClose) only clears the shared
editingId; the row's local edit buffer survives, and a subsequent
begin-edit does not re-seed it from the review's persisted fields (the
useState initializers run only at mount). Concretely: the persisted title
is "A", the user typed "B" into the buffer, cancelled, and begins editing
again — the buffer still shows "B", not "A". -/
theorem cancel_edit_counterexample :
    ((ReviewEntry.step (⟨"r1", "A", "C", "best-shape", 9⟩ : Review) .onEdit
        (ReviewEntry.step (⟨"r1", "A", "C", "best-shape", 9⟩ : Review) .onClose
          ⟨⟨"B", "C"⟩, some "r1"⟩).1).1).buffer.editTitle = "B" ∧
    ("B" : String) ≠ (⟨"r1", "A", "C", "best-shape", 9⟩ : Review).title :=
  ⟨rfl, by decide⟩

/-- C8 amended: cancel returns the controller to Idle and issues no write,
but the local edit buffer is retained unchanged; begin-edit also leaves
the buffer untouched (it is seeded from the review's persisted fields only
when the row mounts), so a cancelled edit's buffered text reappears on the
next begin-edit. -/
theorem cancel_edit (r : Review) (v : EntryView) :
    ReviewEntry.step r .onClose v = ({ v with editingId := none }, []) ∧
    ReviewEntry.step r .onEdit v = ({ v with editingId := some r.id }, []) :=
  ⟨rfl, rfl⟩
